import Mathlib

/-!
Verification development for the omero-cli-transfer plugin
(src/omero_cli_transfer.py).  The definitions below are a shallow
embedding of the pure decision logic of the plugin: Python strings become
Lean String, Python ints become Int, Python dicts become association
lists iterated in insertion order, and the remote-repository calls
(download, export, import, query) become event lists or oracle
parameters.  Each definition carries a reference to the source lines it
translates.
-/

/-! ### Python primitive modelling -/

/-- Decimal value of a digit-character list (helper for pyInt). -/
def natOfDigitChars (ds : List Char) : Nat :=
  ds.foldl (fun a c => a * 10 + (c.toNat - 48)) 0

/-- Models Python int() applied to a well-formed decimal string, possibly
with a leading minus sign (the only shapes the plugin feeds it). -/
def pyInt (s : String) : Int :=
  match s.toList with
  | '-' :: ds => - (Int.ofNat (natOfDigitChars ds))
  | ds => Int.ofNat (natOfDigitChars ds)

/-- Little-endian decimal digits of n, with explicit fuel so that the
definition is structural and kernel-reducible. -/
def digitsRevF : Nat → Nat → List Nat
  | 0, _ => []
  | fuel + 1, n => if n = 0 then [] else n % 10 :: digitsRevF fuel (n / 10)

/-- Models Python str() on a natural number. -/
def pyNatStr (n : Nat) : String :=
  if n = 0 then "0" else String.mk (((digitsRevF n n).map Nat.digitChar).reverse)

/-- Models Python str() on an integer (used by f-strings in the plugin). -/
def pyIntStr (i : Int) : String :=
  if i < 0 then "-" ++ pyNatStr i.natAbs else pyNatStr i.natAbs

/-- Splitter on a nonempty separator, with explicit fuel so that the
definition is structural and kernel-reducible. -/
def splitOnAuxF (sep : List Char) : Nat → List Char → List Char → List (List Char)
  | _, [], acc => [acc.reverse]
  | 0, l, acc => [acc.reverse ++ l]
  | fuel + 1, c :: rest, acc =>
      if sep.isPrefixOf (c :: rest) then
        acc.reverse :: splitOnAuxF sep fuel ((c :: rest).drop sep.length) []
      else
        splitOnAuxF sep fuel rest (c :: acc)

/-- Models Python s.split(sep) for a nonempty separator. -/
def pySplit (sep s : String) : List String :=
  (splitOnAuxF sep.toList s.toList.length s.toList []).map String.mk

/-- Models Python s.endswith(suffix). -/
def pyEndsWith (suffix s : String) : Bool :=
  suffix.toList.isSuffixOf s.toList

/-- Models Python s.rstrip(chars): removes the longest trailing run of
characters drawn from the character SET of chars; it does not remove the
suffix chars as a single unit. -/
def pyRstrip (chars s : String) : String :=
  String.mk ((s.toList.reverse.dropWhile (fun c => chars.toList.contains c)).reverse)

/-- Joins path components with the / separator (helper for pathParent). -/
def joinPath (parts : List String) : String :=
  match parts with
  | [] => ""
  | p :: rest => rest.foldl (fun acc q => acc ++ "/" ++ q) p

/-- Models str(Path(p).parent) on the simple relative paths the plugin
builds (no trailing separators, no dot segments). -/
def pathParent (p : String) : String :=
  let parts := pySplit "/" p
  if parts.length ≤ 1 then "." else joinPath parts.dropLast

/-- Worker for pyForRemove, with explicit fuel so that the definition is
structural and kernel-reducible.  The index i advances on every
iteration even when an element was just removed, exactly as the hidden
index of a CPython for-loop does. -/
def pyForRemoveAux (cond : String → Bool) : Nat → Nat → List String → List String
  | 0, _, lst => lst
  | fuel + 1, i, lst =>
      if h : i < lst.length then
        if cond (lst.get ⟨i, h⟩) then
          pyForRemoveAux cond fuel (i + 1) (lst.erase (lst.get ⟨i, h⟩))
        else
          pyForRemoveAux cond fuel (i + 1) lst
      else lst

/-- Models the CPython semantics of mutating a list while iterating over
it: for x in lst: if cond(x): lst.remove(x).  Removal shifts the
remaining elements left while the hidden loop index still advances, so
the element following a removed one is skipped. -/
def pyForRemove (cond : String → Bool) (lst : List String) : List String :=
  pyForRemoveAux cond lst.length 0 lst

/-! ### Python dict modelling (association lists in insertion order) -/

/-- Models d[k].extend(v) on a collections.defaultdict(list). -/
def extendAt : List (String × List Int) → String → List Int → List (String × List Int)
  | [], k, v => [(k, v)]
  | (k', v') :: rest, k, v =>
      if k' = k then (k', v' ++ v) :: rest else (k', v') :: extendAt rest k v

/-- Models building a defaultdict(list) by d[f(k)].extend(v) over the
entries of an input dict in iteration order. -/
def groupByKey (f : String → String) (m : List (String × List Int)) : List (String × List Int) :=
  m.foldl (fun acc kv => extendAt acc (f kv.1) kv.2) []

/-- Models the dict comprehension sorting every value list in place,
d = \x7bx: sorted(d[x]) for x in d.keys()\x7d. -/
def sortVals (m : List (String × List Int)) : List (String × List Int) :=
  m.map (fun kv => (kv.1, kv.2.insertionSort (· ≤ ·)))

/-- Models dict lookup (d[k] guarded by a containment check). -/
def lookupD : List (String × List Int) → String → Option (List Int)
  | [], _ => none
  | (k', v) :: rest, k => if k' = k then some v else lookupD rest k

/-- Models dict assignment d[k] = v (overwrite keeps the key position). -/
def dictInsert : List (String × Int) → String → Int → List (String × Int)
  | [], k, v => [(k, v)]
  | (k', v') :: rest, k, v =>
      if k' = k then (k', v) :: rest else (k', v') :: dictInsert rest k v

/-- Models dict lookup on an Int-valued dict. -/
def lookupP : List (String × Int) → String → Option Int
  | [], _ => none
  | (k', v) :: rest, k => if k' = k then some v else lookupP rest k

/-- Value of the LAST pair carrying key k in a pair list (proof-side
notion used to characterise repeated dict assignment). -/
def lookupLast : List (String × Int) → String → Option Int
  | [], _ => none
  | p :: rest, k =>
      match lookupLast rest k with
      | some v => some v
      | none => if p.1 = k then some p.2 else none

/-! ### _process_metadata (omero_cli_transfer.py lines 257-269) -/

/-- The eight fields the alias all expands to (line 262-264). -/
def allMetadataFields : List String :=
  ["img_id", "timestamp", "software", "version", "hostname", "md5",
   "orig_user", "orig_group"]

/-- Shallow embedding of TransferControl._process_metadata (lines
257-269).  A missing or empty CLI list defaults to [all]; one occurrence
of all is removed and the eight fields appended; none anywhere resolves
to None (modelled Option.none); a non-empty survivor list is
de-duplicated by list(set(...)), modelled by List.dedup (element order
of a Python set is unspecified, only the underlying set matters). -/
def _process_metadata (metadata : Option (List String)) : Option (List String) :=
  let md0 := match metadata with
    | none => ["all"]
    | some l => if l = [] then ["all"] else l
  let md1 := if "all" ∈ md0 then md0.erase "all" ++ allMetadataFields else md0
  if "none" ∈ md1 then none
  else if md1 = [] then some md1 else some md1.dedup

/-! ### _create_image_map (lines 379-403) -/

/-- Entry of OME.structured_annotations as the plugin inspects it:
its id string, whether its Python type is CommentAnnotation, its
namespace string and its value string. -/
structure SAnn where
  id : String
  isComment : Bool
  ns : String
  value : String
deriving DecidableEq

/-- Entry of OME.images: its id and its annotation reference list
(references are annotation id strings). -/
structure OMEImg where
  id : String
  annotation_ref : List String
deriving DecidableEq

/-- The slice of an ome_types OME document that _create_image_map
reads and rewrites. -/
structure OMEDoc where
  structured_annotations : List SAnn
  images : List OMEImg
deriving DecidableEq

/-- The placeholder test of lines 387-389: negative id suffix, comment
type, namespace prefix Image. -/
def isPlaceholder (a : SAnn) : Bool :=
  pyInt ((pySplit ":" a.id).getLastD "") < 0 && a.isComment &&
    ((pySplit ":" a.ns).headD "") == "Image"

/-- The shared key normalization of lines 392-395 and 466-471:
if k.endswith("mock_folder"): k = k.rstrip("mock_folder"). -/
def stripMockKey (k : String) : String :=
  if pyEndsWith "mock_folder" k then pyRstrip "mock_folder" k else k

/-- Accumulator state of the first loop of _create_image_map. -/
structure CIMState where
  img_map : List (String × List Int)
  filelist : List String
  map_ref_ids : List String
  newanns : List SAnn

/-- Body of the loop over ome.structured_annotations (lines 386-396):
record the placeholder, strip the sentinel suffix for the file list and
remove the placeholder from the copied document. -/
def cimStep (st : CIMState) (ann : SAnn) : CIMState :=
  if isPlaceholder ann then
    { img_map := extendAt st.img_map ann.value [pyInt ((pySplit ":" ann.ns).getLastD "")]
      filelist := st.filelist ++ [stripMockKey ann.value]
      map_ref_ids := st.map_ref_ids ++ [ann.id]
      newanns := st.newanns.erase ann }
  else st

/-- Shallow embedding of TransferControl._create_image_map (lines
379-403): returns the cleaned document, the path to sorted source id
map, and the deduplicated file list.  The reference-removal loop of
lines 397-400 mutates each annotation_ref list while iterating over it,
which pyForRemove reproduces faithfully. -/
def _create_image_map (ome : OMEDoc) : OMEDoc × List (String × List Int) × List String :=
  let st := ome.structured_annotations.foldl cimStep
    { img_map := [], filelist := [], map_ref_ids := [],
      newanns := ome.structured_annotations }
  let newimages := ome.images.map (fun i =>
    { i with annotation_ref := pyForRemove (fun r => st.map_ref_ids.contains r) i.annotation_ref })
  ({ structured_annotations := st.newanns, images := newimages },
   sortVals st.img_map, st.filelist.dedup)

/-! ### _get_image_ids (lines 422-459) -/

/-- Body of the filtering loop of lines 445-458: keep an id when it has
no map annotations at all, or when none of them carries the reserved
transfer namespace (the is_annotated flag loop of lines 451-456). -/
def giiStep (map_ann_ids : Int → List Int) (ann_ns : Int → String)
    (image_ids : List Int) (img_id : Int) : List Int :=
  let anns := map_ann_ids img_id
  if anns = [] then image_ids ++ [img_id]
  else if anns.any (fun a => ann_ns a == "openmicroscopy.org/cli/transfer") then
    image_ids
  else image_ids ++ [img_id]

/-- Shallow embedding of TransferControl._get_image_ids (lines 422-459).
results is the projection of the clientPath LIKE query; the oracles
map_ann_ids and ann_ns model ezomero.get_map_annotation_ids and the
namespace of each map annotation.  list(set(sorted(...))) of line 444
is modelled by sorting then deduplicating (Python set order is
unspecified; only membership is observable downstream). -/
def _get_image_ids (results : List Int) (map_ann_ids : Int → List Int)
    (ann_ns : Int → String) : List Int :=
  let all_image_ids := (results.insertionSort (· ≤ ·)).dedup
  all_image_ids.foldl (giiStep map_ann_ids ann_ns) []

/-! ### _make_image_map (lines 461-486) -/

/-- Destination key normalization of line 474: k.split("/./")[-1]. -/
def destNormKey (k : String) : String :=
  (pySplit "/./" k).getLastD ""

/-- The normalized, grouped and value-sorted source dict of lines
464-471 and 476. -/
def srcDict (source_map : List (String × List Int)) : List (String × List Int) :=
  sortVals (groupByKey stripMockKey source_map)

/-- The normalized, grouped and value-sorted destination dict of lines
472-475 and 477. -/
def destDict (dest_map : List (String × List Int)) : List (String × List Int) :=
  sortVals (groupByKey destNormKey dest_map)

/-- The inner pairing loop of lines 483-485; the length-equality guard
of line 482 makes the index loop over equal-length lists, so zipping is
exact. -/
def packPairs (sv dv : List Int) (imgmap : List (String × Int)) : List (String × Int) :=
  (sv.zip dv).foldl (fun im p => dictInsert im ("Image:" ++ pyIntStr p.1) p.2) imgmap

/-- One iteration of the outer loop of lines 478-485. -/
def packStep (dd : List (String × List Int)) (imgmap : List (String × Int))
    (kv : String × List Int) : List (String × Int) :=
  match lookupD dd kv.1 with
  | some dv => if kv.2.length = dv.length then packPairs kv.2 dv imgmap else imgmap
  | none => imgmap

/-- Shallow embedding of TransferControl._make_image_map (lines
461-486). -/
def _make_image_map (source_map dest_map : List (String × List Int)) : List (String × Int) :=
  (srcDict source_map).foldl (packStep (destDict dest_map)) []

/-- Per-group emission list (proof-side notion): the pairs the group kv
of the source dict writes into imgmap. -/
def groupEmissions (dd : List (String × List Int)) (kv : String × List Int) : List (String × Int) :=
  match lookupD dd kv.1 with
  | some dv =>
      if kv.2.length = dv.length then
        (kv.2.zip dv).map (fun p => ("Image:" ++ pyIntStr p.1, p.2))
      else []
  | none => []

/-- All pairs written into imgmap across the outer loop, in write
order (proof-side notion). -/
def emissions (source_map dest_map : List (String × List Int)) : List (String × Int) :=
  ((srcDict source_map).map (groupEmissions (destDict dest_map))).flatten

/-! ### _copy_files (lines 209-247) -/

/-- Element of the Python downloaded_ids list, which mixes ints (line
240 appends the raw id string; line 247 appends fileset image ids). -/
inductive DLId where
  | int (n : Int)
  | str (s : String)
deriving DecidableEq

/-- One remote fetch invocation performed by _copy_files. -/
inductive FetchEvent where
  | exportFile (id : String) (filepath : String)
  | downloadFile (id : String) (folder : String)
deriving DecidableEq

/-- Body of the loop over id_list of lines 221-247.  The state is the
downloaded_ids list plus the fetch events so far; fileset models
conn.getObject(...).getFileset().copyImages() id enumeration. -/
def copyStep (fileset : Int → List Int) (folder : String)
    (st : List DLId × List FetchEvent) (kv : String × String) : List DLId × List FetchEvent :=
  let id := kv.1
  let clean_id := pyInt ((pySplit ":" id).getLastD "")
  let dtype := (pySplit ":" id).headD ""
  if st.1.contains (DLId.int clean_id) then st
  else
    let path := kv.2
    let rel_path := if dtype == "Image" then pathParent path else path
    let subfolder := folder ++ "/" ++ rel_path
    let id2 := if dtype == "Annotation" then "File" ++ id else id
    if rel_path == "pixel_images" then
      (st.1 ++ [DLId.str id2],
       st.2 ++ [FetchEvent.exportFile id2 (subfolder ++ "/" ++ pyIntStr clean_id ++ ".tiff")])
    else if dtype == "Image" then
      (st.1 ++ (fileset clean_id).map DLId.int,
       st.2 ++ [FetchEvent.downloadFile id2 subfolder])
    else
      (st.1, st.2 ++ [FetchEvent.downloadFile id2 subfolder])

/-- Shallow embedding of TransferControl._copy_files (lines 209-247),
returning the fetch invocations it issues.  id_list is the Python dict
in insertion order: keys are object reference strings, values are
archive-relative paths. -/
def _copy_files (fileset : Int → List Int) (id_list : List (String × String))
    (folder : String) : List FetchEvent :=
  (id_list.foldl (copyStep fileset folder) ([], [])).2

/-! ### __pack (lines 271-317) -/

/-- The five object kinds a pack target can resolve to. -/
inductive ObjKind where
  | image | dataset | project | plate | screen
deriving DecidableEq

/-- Observable step of the pack pipeline, in program order. -/
inductive PackEvent where
  | resolve (dtype : String) (oid : Int)
  | mkdirWork (folder : String)
  | populateXmlStep (dtype : String) (oid : Int) (mdPath : String)
  | copyFilesStep
  | populateTsvStep
  | packageStep (zip : Bool)
  | cleanupStep
deriving DecidableEq

/-- The if/elif type dispatch of lines 272-288.  The first test of line
272 matches Image, Screen and Plate alike and maps all three to the
datatype string Image; the later Plate and Screen branches of lines
282-285 are consequently unreachable. -/
def packTypeBranch (obj : ObjKind) (oid : Int) (barchive : Bool) : Except String (String × Int) :=
  if obj = ObjKind.image ∨ obj = ObjKind.screen ∨ obj = ObjKind.plate then
    if barchive then
      Except.error "Single image, plate or screen cannot be packaged for Bioimage Archive"
    else Except.ok ("Image", oid)
  else if obj = ObjKind.dataset then Except.ok ("Dataset", oid)
  else if obj = ObjKind.project then Except.ok ("Project", oid)
  else if obj = ObjKind.plate then Except.ok ("Plate", oid)
  else if obj = ObjKind.screen then Except.ok ("Screen", oid)
  else Except.error "Object is not a project, dataset, screen, plate or image"

/-- Shallow embedding of TransferControl.__pack (lines 271-317): the
list of pipeline events it performs, in order, together with its
outcome.  objExists models whether self.gateway.getObject finds the
object (line 291). -/
def __pack (obj : ObjKind) (oid : Int) (barchive zipFlag : Bool) (filepath : String)
    (objExists : String → Int → Bool) : List PackEvent × Except String Unit :=
  match packTypeBranch obj oid barchive with
  | Except.error e => ([], Except.error e)
  | Except.ok (dtype, did) =>
    let ev1 := [PackEvent.resolve dtype did]
    if objExists dtype did then
      let folder := filepath ++ "_folder"
      let ev2 := ev1 ++ [PackEvent.mkdirWork folder]
      let mdPath := if barchive then folder ++ "/submission.tsv" else folder ++ "/transfer.xml"
      let ev3 := ev2 ++ [PackEvent.populateXmlStep dtype did mdPath, PackEvent.copyFilesStep]
      let ev4 := if barchive then ev3 ++ [PackEvent.populateTsvStep] else ev3
      (ev4 ++ [PackEvent.packageStep zipFlag, PackEvent.cleanupStep], Except.ok ())
    else
      (ev1, Except.error "Object not found or outside current permissions for current user.")

/-! ### Executable sanity checks of the embedding -/

example : pySplit ":" "Image:5" = ["Image", "5"] := by decide

example : pySplit "/./" "a/b/./c/d" = ["a/b", "c/d"] := by decide

example : pyInt "-12" = -12 ∧ pyInt "05" = 5 := by decide

example : pyIntStr 057 = "57" := by decide

example : stripMockKey "root_0/image1/mock_folder" = "root_0/image1/" := by decide

example : pathParent "pixel_images/5.tiff" = "pixel_images" := by decide

example :
    _make_image_map [("p", [7, 5])] [("root/./p", [103, 101])]
      = [("Image:5", 101), ("Image:7", 103)] := by decide

example : _make_image_map [("p", [5, 7])] [("root/./p", [101])] = [] := by decide

example :
    pyForRemove (fun r => r == "a" || r == "b") ["a", "b", "c"] = ["b", "c"] := by decide

/-! ### Concrete instances used by the counterexample theorems -/

/-- An interchange document with one image carrying two consecutive
placeholder references, as the model builder produces for an image
represented by two placeholder annotations. -/
def exPlaceholderDoc : OMEDoc :=
  { structured_annotations :=
      [{ id := "Annotation:-1", isComment := true, ns := "Image:10",
         value := "root_0/image1/mock_folder" },
       { id := "Annotation:-2", isComment := true, ns := "Image:11",
         value := "root_0/image1/mock_folder" }],
    images := [{ id := "Image:10", annotation_ref := ["Annotation:-1", "Annotation:-2"] }] }

/-! ### Helper lemmas for _get_image_ids -/

/-- Keep predicate of the filtering loop of lines 445-458: an image id
survives exactly when none of its map annotations carries the reserved
transfer namespace. -/
def giiKeep (map_ann_ids : Int → List Int) (ann_ns : Int → String) (img_id : Int) : Bool :=
  !(map_ann_ids img_id).any (fun a => ann_ns a == "openmicroscopy.org/cli/transfer")

theorem giiStep_eq (map_ann_ids : Int → List Int) (ann_ns : Int → String)
    (image_ids : List Int) (img_id : Int) :
    giiStep map_ann_ids ann_ns image_ids img_id
      = if giiKeep map_ann_ids ann_ns img_id then image_ids ++ [img_id] else image_ids := by
  unfold giiStep giiKeep
  by_cases h0 : map_ann_ids img_id = []
  · simp [h0]
  · by_cases h1 : (map_ann_ids img_id).any (fun a => ann_ns a == "openmicroscopy.org/cli/transfer")
    · simp [h0, h1]
    · simp [h0, h1]

theorem gii_foldl_filter (map_ann_ids : Int → List Int) (ann_ns : Int → String)
    (l acc : List Int) :
    l.foldl (giiStep map_ann_ids ann_ns) acc
      = acc ++ l.filter (giiKeep map_ann_ids ann_ns) := by
  induction l generalizing acc with
  | nil => simp
  | cons x xs ih =>
    rw [List.foldl_cons, giiStep_eq, List.filter_cons]
    by_cases hk : giiKeep map_ann_ids ann_ns x
    · simp [hk, ih]
    · simp [hk, ih]

/-! ### Claim C7: provenance-marker filtering of _get_image_ids -/

/-- C7: a destination image id discovered by the per-path query is in
the list returned by _get_image_ids if and only if it carries no map
annotation with the reserved namespace openmicroscopy.org/cli/transfer;
an image already carrying one is always excluded, so a re-run of
discovery over the same path omits images produced by a prior run. -/
theorem get_image_ids_marker_filter (results : List Int) (map_ann_ids : Int → List Int)
    (ann_ns : Int → String) (i : Int) :
    i ∈ _get_image_ids results map_ann_ids ann_ns ↔
      i ∈ results ∧ ∀ a ∈ map_ann_ids i, ann_ns a ≠ "openmicroscopy.org/cli/transfer" := by
  unfold _get_image_ids
  rw [gii_foldl_filter, List.nil_append, List.mem_filter, List.mem_dedup]
  apply and_congr
  · exact (List.perm_insertionSort _ _).mem_iff
  · simp [giiKeep, List.any_eq_false]

/-! ### Claim C10: none dominates in _process_metadata -/

/-- C10: if the metadata field list contains the token none anywhere,
the resolved selection is empty (None), regardless of the other tokens,
including all. -/
theorem process_metadata_none_dominates (l : List String) (h : "none" ∈ l) :
    _process_metadata (some l) = none := by
  have hne : ¬(l = []) := List.ne_nil_of_mem h
  have hmem : "none" ∈ (if "all" ∈ l then l.erase "all" ++ allMetadataFields else l) := by
    by_cases hall : "all" ∈ l
    · rw [if_pos hall]
      exact List.mem_append_left _ ((List.mem_erase_of_ne (by decide)).mpr h)
    · rwa [if_neg hall]
  simp only [_process_metadata, if_neg hne, if_pos hmem]

theorem process_metadata_none_dominates_witness :
    "none" ∈ ["none", "img_id"] ∧ _process_metadata (some ["none", "img_id"]) = none :=
  ⟨by decide, process_metadata_none_dominates ["none", "img_id"] (by decide)⟩

/-! ### Claim C4: metadata-field resolution -/

/-- C4: metadata-field resolution maps [all] to exactly the fixed
8-element field set (img_id, timestamp, software, version, hostname,
md5, orig_user, orig_group), with no duplicates; maps [none] to the
empty selection; and de-duplicates an explicit field list. -/
theorem process_metadata_resolution :
    _process_metadata (some ["all"])
        = some ["img_id", "timestamp", "software", "version", "hostname", "md5",
                "orig_user", "orig_group"]
      ∧ (["img_id", "timestamp", "software", "version", "hostname", "md5",
          "orig_user", "orig_group"] : List String).Nodup
      ∧ _process_metadata (some ["none"]) = none
      ∧ _process_metadata (some ["img_id", "img_id"]) = some ["img_id"] := by decide

/-! ### Claim C5: repeated all leaves the alias in the selection -/

/-- C5 failing input: for the CLI list [all, all] (both occurrences are
valid CLI choices), the resolved selection still contains the alias
token all, because line 261 removes only one occurrence before the
expansion of lines 262-264; the resolved set is therefore not a subset
of the fixed nine-field enumeration. -/
theorem process_metadata_repeated_all_keeps_alias :
    "all" ∈ (_process_metadata (some ["all", "all"])).getD []
      ∧ "all" ∉ ["img_id", "timestamp", "software", "version", "md5", "hostname",
                 "db_id", "orig_user", "orig_group"] := by decide

/-! ### Claim C8: barchive with a single object is rejected first -/

/-- C8: a pack invocation whose target is a single Image, Plate or
Screen with the barchive flag set errors out with an empty event trace:
no object resolution, no metadata document building, no working-folder
creation and no file write has happened. -/
theorem pack_barchive_single_object_rejected (obj : ObjKind) (oid : Int)
    (zipFlag : Bool) (filepath : String) (objExists : String → Int → Bool)
    (h : obj = ObjKind.image ∨ obj = ObjKind.plate ∨ obj = ObjKind.screen) :
    __pack obj oid true zipFlag filepath objExists
      = ([], Except.error "Single image, plate or screen cannot be packaged for Bioimage Archive") := by
  rcases h with h | h | h <;> subst h <;> rfl

theorem pack_barchive_single_object_rejected_witness :
    (ObjKind.image = ObjKind.image ∨ ObjKind.image = ObjKind.plate
        ∨ ObjKind.image = ObjKind.screen)
      ∧ __pack ObjKind.image 3 true false "t.tar" (fun _ _ => true)
          = ([], Except.error "Single image, plate or screen cannot be packaged for Bioimage Archive") :=
  ⟨Or.inl rfl,
   pack_barchive_single_object_rejected ObjKind.image 3 false "t.tar" (fun _ _ => true) (Or.inl rfl)⟩

/-! ### Claim C9: Plate and Screen targets are resolved as Image -/

/-- C9 failing input: a Plate (or Screen) pack target with barchive off
is resolved from the repository under datatype Image, because the first
branch of line 272 matches Image, Screen and Plate alike; the dedicated
Plate and Screen elif branches of lines 282-285 are unreachable. -/
theorem pack_plate_screen_resolved_as_image :
    (__pack ObjKind.plate 7 false false "pack.tar" (fun _ _ => true)).1.head?
        = some (PackEvent.resolve "Image" 7)
      ∧ (__pack ObjKind.screen 8 false false "pack.tar" (fun _ _ => true)).1.head?
        = some (PackEvent.resolve "Image" 8)
      ∧ packTypeBranch ObjKind.plate 7 false = Except.ok ("Image", 7) :=
  ⟨rfl, rfl, rfl⟩

/-! ### Claim C2: dangling references after _create_image_map -/

/-- C2 failing input: on a document whose single image carries two
consecutive placeholder references, _create_image_map removes both
placeholder annotations but leaves the reference to Annotation:-2 in
the image, a dangling reference: line 400 removes elements from
annotation_ref while line 398 iterates over the same list, so the
element after each removed one is skipped. -/
theorem create_image_map_leaves_dangling_ref :
    (_create_image_map exPlaceholderDoc).1.structured_annotations = []
      ∧ (_create_image_map exPlaceholderDoc).1.images.map OMEImg.annotation_ref
          = [["Annotation:-2"]] := by decide

/-! ### Claim C3: the sentinel strip is a character-set strip -/

/-- C3 failing input: on the path filemock_folder, which ends in the
sentinel suffix, the normalization shared by _create_image_map and
_make_image_map returns fi, not the claimed 11-character-suffix removal
file: Python str.rstrip strips a trailing run of characters drawn from
the set of mock_folder, so it also eats the trailing le of file. -/
theorem strip_mock_overstrips :
    stripMockKey "filemock_folder" = "fi"
      ∧ stripMockKey "filemock_folder" ≠ "file" := by decide

/-! ### Claim C6: pixel-image export de-duplication fails -/

/-- C6 failing input: the keys Image:5 and Image:05 are distinct dict
keys denoting the same underlying image 5 under a pixel_images path;
_copy_files exports image 5 twice, because line 240 records the raw id
STRING in downloaded_ids while the de-duplication guard of line 224
tests the integer clean_id against that list. -/
theorem copy_files_pixel_export_not_deduplicated :
    _copy_files (fun _ => [])
        [("Image:5", "pixel_images/5.tiff"), ("Image:05", "pixel_images/5.tiff")] "out"
      = [FetchEvent.exportFile "Image:5" "out/pixel_images/5.tiff",
         FetchEvent.exportFile "Image:05" "out/pixel_images/5.tiff"]
      ∧ pyInt ((pySplit ":" "Image:5").getLastD "")
          = pyInt ((pySplit ":" "Image:05").getLastD "") := by decide

/-! ### Injectivity of the decimal rendering pyIntStr -/

theorem digitsRevF_eq_digits (fuel n : Nat) (h : n ≤ fuel) :
    digitsRevF fuel n = Nat.digits 10 n := by
  induction fuel generalizing n with
  | zero =>
    have hz : n = 0 := Nat.le_zero.mp h
    subst hz; simp [digitsRevF]
  | succ fuel ih =>
    by_cases hn : n = 0
    · subst hn; simp [digitsRevF]
    · have hdiv : n / 10 ≤ fuel := by
        have := Nat.div_lt_self (Nat.pos_of_ne_zero hn) (by norm_num : 1 < 10)
        omega
      rw [show digitsRevF (fuel + 1) n
            = if n = 0 then [] else n % 10 :: digitsRevF fuel (n / 10) from rfl,
        if_neg hn, ih _ hdiv,
        Nat.digits_def' (by norm_num : (1 : Nat) < 10) (Nat.pos_of_ne_zero hn)]

theorem digitChar_inj_lt (a b : Nat) (ha : a < 10) (hb : b < 10)
    (h : Nat.digitChar a = Nat.digitChar b) : a = b := by
  interval_cases a <;> interval_cases b <;> revert h <;> decide

theorem digitChar_ne_dash (d : Nat) (hd : d < 10) : Nat.digitChar d ≠ '-' := by
  interval_cases d <;> decide

theorem map_digitChar_inj (l1 l2 : List Nat) (h1 : ∀ x ∈ l1, x < 10)
    (h2 : ∀ x ∈ l2, x < 10) (h : l1.map Nat.digitChar = l2.map Nat.digitChar) :
    l1 = l2 := by
  induction l1 generalizing l2 with
  | nil => cases l2 with
    | nil => rfl
    | cons b t => simp at h
  | cons a t ih =>
    cases l2 with
    | nil => simp at h
    | cons b t2 =>
      simp only [List.map_cons, List.cons.injEq] at h
      have hab := digitChar_inj_lt a b (h1 a (by simp)) (h2 b (by simp)) h.1
      have ht := ih t2 (fun x hx => h1 x (by simp [hx])) (fun x hx => h2 x (by simp [hx])) h.2
      rw [hab, ht]

theorem pyNatStr_data (n : Nat) (hn : n ≠ 0) :
    (pyNatStr n).data = ((Nat.digits 10 n).map Nat.digitChar).reverse := by
  rw [pyNatStr, if_neg hn, digitsRevF_eq_digits n n le_rfl]

theorem pyNatStr_ne_zero_str (n : Nat) (hn : n ≠ 0) : pyNatStr n ≠ "0" := by
  intro h
  have hd := congrArg String.data h
  rw [pyNatStr_data n hn] at hd
  have : (Nat.digits 10 n).map Nat.digitChar = ['0'] := by
    have := congrArg List.reverse hd
    simpa using this
  have hdig : Nat.digits 10 n = [0] := by
    cases hds : Nat.digits 10 n with
    | nil => rw [hds] at this; simp at this
    | cons d rest =>
      rw [hds] at this
      simp only [List.map_cons, List.cons.injEq] at this
      have hrest : rest = [] := by
        cases rest with
        | nil => rfl
        | cons e t => simp at this
      subst hrest
      have hdlt : d < 10 := Nat.digits_lt_base (by norm_num) (by rw [hds]; simp)
      have : d = 0 := by
        apply digitChar_inj_lt d 0 hdlt (by norm_num)
        simpa using this.1
      rw [this]
  have : n = 0 := by
    have := congrArg (Nat.ofDigits 10) hdig
    rwa [Nat.ofDigits_digits, Nat.ofDigits_singleton] at this
  exact hn this

theorem pyNatStr_inj (a b : Nat) (h : pyNatStr a = pyNatStr b) : a = b := by
  by_cases ha : a = 0 <;> by_cases hb : b = 0
  · rw [ha, hb]
  · exfalso
    have : pyNatStr b = "0" := by rw [← h, pyNatStr, if_pos ha]
    exact pyNatStr_ne_zero_str b hb this
  · exfalso
    have : pyNatStr a = "0" := by rw [h, pyNatStr, if_pos hb]
    exact pyNatStr_ne_zero_str a ha this
  · have hd := congrArg String.data h
    rw [pyNatStr_data a ha, pyNatStr_data b hb] at hd
    have hmap : (Nat.digits 10 a).map Nat.digitChar = (Nat.digits 10 b).map Nat.digitChar := by
      have := congrArg List.reverse hd
      simpa using this
    have hdig := map_digitChar_inj _ _
      (fun x hx => Nat.digits_lt_base (by norm_num) hx)
      (fun x hx => Nat.digits_lt_base (by norm_num) hx) hmap
    have := congrArg (Nat.ofDigits 10) hdig
    rwa [Nat.ofDigits_digits, Nat.ofDigits_digits] at this

theorem dash_not_mem_pyNatStr (n : Nat) : '-' ∉ (pyNatStr n).data := by
  by_cases hn : n = 0
  · subst hn; decide
  · rw [pyNatStr_data n hn]
    intro hmem
    rw [List.mem_reverse] at hmem
    obtain ⟨d, hd, hchar⟩ := List.mem_map.mp hmem
    exact digitChar_ne_dash d (Nat.digits_lt_base (by norm_num) hd) hchar

theorem pyIntStr_inj (i j : Int) (h : pyIntStr i = pyIntStr j) : i = j := by
  unfold pyIntStr at h
  by_cases hi : i < 0 <;> by_cases hj : j < 0
  · rw [if_pos hi, if_pos hj] at h
    have hd := congrArg String.data h
    rw [String.data_append, String.data_append] at hd
    have hdd : (pyNatStr i.natAbs).data = (pyNatStr j.natAbs).data := by
      have : ("-" : String).data = ['-'] := by decide
      rw [this] at hd
      simpa using hd
    have := pyNatStr_inj i.natAbs j.natAbs (by
      apply String.ext
      exact hdd)
    omega
  · exfalso
    rw [if_pos hi, if_neg hj] at h
    have hd := congrArg String.data h
    rw [String.data_append] at hd
    have hdash : ("-" : String).data = ['-'] := by decide
    rw [hdash] at hd
    have : '-' ∈ (pyNatStr j.natAbs).data := by
      rw [← hd]; exact List.mem_cons_self _ _
    exact dash_not_mem_pyNatStr _ this
  · exfalso
    rw [if_neg hi, if_pos hj] at h
    have hd := congrArg String.data h
    rw [String.data_append] at hd
    have hdash : ("-" : String).data = ['-'] := by decide
    rw [hdash] at hd
    have : '-' ∈ (pyNatStr i.natAbs).data := by
      rw [hd]; exact List.mem_cons_self _ _
    exact dash_not_mem_pyNatStr _ this
  · rw [if_neg hi, if_neg hj] at h
    have := pyNatStr_inj i.natAbs j.natAbs h
    omega

/-! ### Association-list lemmas -/

theorem lookupP_dictInsert (m : List (String × Int)) (k : String) (v : Int) (k' : String) :
    lookupP (dictInsert m k v) k' = if k' = k then some v else lookupP m k' := by
  induction m with
  | nil =>
    by_cases h : k' = k
    · subst h; simp [dictInsert, lookupP]
    · have h2 : ¬(k = k') := fun hh => h hh.symm
      simp [dictInsert, lookupP, h, h2]
  | cons a rest ih =>
    obtain ⟨a1, a2⟩ := a
    by_cases hak : a1 = k
    · subst hak
      by_cases h : k' = a1
      · subst h; simp [dictInsert, lookupP]
      · have h2 : ¬(a1 = k') := fun hh => h hh.symm
        simp [dictInsert, lookupP, h, h2]
    · by_cases haq : a1 = k'
      · subst haq
        have h2 : ¬(a1 = k) := hak
        simp [dictInsert, lookupP, h2, fun hh : a1 = k => hak hh]
      · simp [dictInsert, lookupP, hak, haq, ih]

theorem lookupLast_mem (L : List (String × Int)) (k : String) (v : Int)
    (h : lookupLast L k = some v) : (k, v) ∈ L := by
  induction L with
  | nil => simp [lookupLast] at h
  | cons p rest ih =>
    rw [lookupLast] at h
    cases hr : lookupLast rest k with
    | some w =>
      rw [hr] at h
      have hw : w = v := by simpa using h
      subst hw
      exact List.mem_cons_of_mem _ (ih hr)
    | none =>
      rw [hr] at h
      by_cases hp : p.1 = k
      · have hv : p.2 = v := by
          rw [if_pos hp] at h
          simpa using h
        have : p = (k, v) := by
          obtain ⟨p1, p2⟩ := p
          simp only at hp hv
          rw [hp, hv]
        rw [← this]
        exact List.mem_cons_self _ _
      · rw [if_neg hp] at h
        simp at h

theorem lookupLast_eq_none (L : List (String × Int)) (k : String)
    (h : ∀ q ∈ L, q.1 ≠ k) : lookupLast L k = none := by
  induction L with
  | nil => rfl
  | cons p rest ih =>
    rw [lookupLast, ih (fun q hq => h q (List.mem_cons_of_mem _ hq))]
    simp [h p (List.mem_cons_self _ _)]

theorem lookupLast_isSome_of_mem (L : List (String × Int)) (k : String) (v : Int)
    (h : (k, v) ∈ L) : lookupLast L k ≠ none := by
  induction L with
  | nil => simp at h
  | cons p rest ih =>
    rw [lookupLast]
    cases hr : lookupLast rest k with
    | some w => simp
    | none =>
      rcases List.mem_cons.mp h with hp | hp
      · rw [if_pos (by rw [← hp])]
        simp
      · exact absurd hr (ih hp)

theorem lookupLast_unique (L : List (String × Int)) (k : String) (v : Int)
    (hmem : (k, v) ∈ L) (huniq : ∀ w, (k, w) ∈ L → w = v) :
    lookupLast L k = some v := by
  induction L with
  | nil => simp at hmem
  | cons p rest ih =>
    rw [lookupLast]
    cases hr : lookupLast rest k with
    | some w =>
      have hw : (k, w) ∈ rest := lookupLast_mem rest k w hr
      rw [huniq w (List.mem_cons_of_mem _ hw)]
    | none =>
      rcases List.mem_cons.mp hmem with hp | hp
      · rw [if_pos (by rw [← hp])]
        rw [← hp]
      · exact absurd hr (lookupLast_isSome_of_mem rest k v hp)

theorem lookupD_mem (l : List (String × List Int)) (k : String) (v : List Int)
    (h : lookupD l k = some v) : (k, v) ∈ l := by
  induction l with
  | nil => simp [lookupD] at h
  | cons a rest ih =>
    obtain ⟨a1, a2⟩ := a
    rw [lookupD] at h
    by_cases ha : a1 = k
    · rw [if_pos ha] at h
      have hv : a2 = v := by simpa using h
      rw [← ha, ← hv]
      exact List.mem_cons_self _ _
    · rw [if_neg ha] at h
      exact List.mem_cons_of_mem _ (ih h)

theorem lookupD_eq_some_of_mem (l : List (String × List Int)) (k : String) (v : List Int)
    (hnd : (l.map Prod.fst).Nodup) (h : (k, v) ∈ l) : lookupD l k = some v := by
  induction l with
  | nil => simp at h
  | cons a rest ih =>
    obtain ⟨a1, a2⟩ := a
    rw [List.map_cons, List.nodup_cons] at hnd
    rw [lookupD]
    rcases List.mem_cons.mp h with hp | hp
    · have h1 : a1 = k := by
        have := congrArg Prod.fst hp
        simpa using this.symm
      have h2 : a2 = v := by
        have := congrArg Prod.snd hp
        simpa using this.symm
      rw [if_pos h1, h2]
    · have hk : k ∈ rest.map Prod.fst := by
        exact List.mem_map.mpr ⟨(k, v), hp, rfl⟩
      have hne : ¬(a1 = k) := fun hh => hnd.1 (hh ▸ hk)
      rw [if_neg hne]
      exact ih hnd.2 hp

theorem mem_flatten_of_lookupD (l : List (String × List Int)) (k : String) (v : List Int)
    (x : Int) (h : lookupD l k = some v) (hx : x ∈ v) :
    x ∈ (l.map Prod.snd).flatten := by
  have hmem := lookupD_mem l k v h
  exact List.mem_flatten.mpr ⟨v, List.mem_map.mpr ⟨(k, v), hmem, rfl⟩, hx⟩

theorem lookupD_disjoint (l : List (String × List Int))
    (hnd : ((l.map Prod.snd).flatten).Nodup) (p q : String) (v w : List Int)
    (hp : lookupD l p = some v) (hq : lookupD l q = some w) (hpq : p ≠ q)
    (x : Int) (hxv : x ∈ v) : x ∉ w := by
  induction l with
  | nil => simp [lookupD] at hp
  | cons a rest ih =>
    obtain ⟨a1, a2⟩ := a
    rw [List.map_cons, List.flatten_cons, List.nodup_append] at hnd
    rw [lookupD] at hp hq
    by_cases hap : a1 = p
    · rw [if_pos hap] at hp
      have hv : a2 = v := by simpa using hp
      have haq : ¬(a1 = q) := fun hh => hpq ((hap.symm.trans hh))
      rw [if_neg haq] at hq
      intro hxw
      have hxflat : x ∈ (rest.map Prod.snd).flatten :=
        mem_flatten_of_lookupD rest q w x hq hxw
      exact hnd.2.2 (hv ▸ hxv) hxflat
    · rw [if_neg hap] at hp
      by_cases haq : a1 = q
      · rw [if_pos haq] at hq
        have hw : a2 = w := by simpa using hq
        intro hxw
        have hxflat : x ∈ (rest.map Prod.snd).flatten :=
          mem_flatten_of_lookupD rest p v x hp hxv
        exact hnd.2.2 (hw ▸ hxw) hxflat
      · rw [if_neg haq] at hq
        exact ih hnd.2.1 hp hq

theorem lookupD_val_nodup (l : List (String × List Int))
    (hnd : ((l.map Prod.snd).flatten).Nodup) (p : String) (v : List Int)
    (hp : lookupD l p = some v) : v.Nodup := by
  induction l with
  | nil => simp [lookupD] at hp
  | cons a rest ih =>
    obtain ⟨a1, a2⟩ := a
    rw [List.map_cons, List.flatten_cons, List.nodup_append] at hnd
    rw [lookupD] at hp
    by_cases hap : a1 = p
    · rw [if_pos hap] at hp
      have hv : a2 = v := by simpa using hp
      exact hv ▸ hnd.1
    · rw [if_neg hap] at hp
      exact ih hnd.2.1 hp

/-! ### Grouping lemmas for srcDict and destDict -/

theorem extendAt_map_fst (l : List (String × List Int)) (k : String) (v : List Int) :
    (extendAt l k v).map Prod.fst
      = if k ∈ l.map Prod.fst then l.map Prod.fst else l.map Prod.fst ++ [k] := by
  induction l with
  | nil => simp [extendAt]
  | cons a rest ih =>
    obtain ⟨a1, a2⟩ := a
    by_cases h : a1 = k
    · subst h
      simp [extendAt]
    · rw [show extendAt ((a1, a2) :: rest) k v = (a1, a2) :: extendAt rest k v from by
        rw [extendAt, if_neg h]]
      rw [List.map_cons, List.map_cons, ih]
      have hk : (k ∈ a1 :: rest.map Prod.fst) ↔ k ∈ rest.map Prod.fst := by
        constructor
        · intro hh
          rcases List.mem_cons.mp hh with h1 | h1
          · exact absurd h1.symm h
          · exact h1
        · exact fun hh => List.mem_cons_of_mem _ hh
      by_cases hmem : k ∈ rest.map Prod.fst
      · rw [if_pos hmem, if_pos (hk.mpr hmem)]
      · rw [if_neg hmem, if_neg (fun hh => hmem (hk.mp hh))]
        simp

theorem extendAt_keys_nodup (l : List (String × List Int)) (k : String) (v : List Int)
    (h : (l.map Prod.fst).Nodup) : ((extendAt l k v).map Prod.fst).Nodup := by
  rw [extendAt_map_fst]
  by_cases hk : k ∈ l.map Prod.fst
  · rwa [if_pos hk]
  · rw [if_neg hk]
    simp [List.nodup_append, h, hk]

theorem foldl_extendAt_keys_nodup (f : String → String) (m : List (String × List Int))
    (acc : List (String × List Int)) (h : (acc.map Prod.fst).Nodup) :
    ((m.foldl (fun acc kv => extendAt acc (f kv.1) kv.2) acc).map Prod.fst).Nodup := by
  induction m generalizing acc with
  | nil => exact h
  | cons kv rest ih => exact ih _ (extendAt_keys_nodup _ _ _ h)

theorem groupByKey_keys_nodup (f : String → String) (m : List (String × List Int)) :
    ((groupByKey f m).map Prod.fst).Nodup :=
  foldl_extendAt_keys_nodup f m [] (by simp)

theorem extendAt_flatten_perm (l : List (String × List Int)) (k : String) (v : List Int) :
    ((extendAt l k v).map Prod.snd).flatten.Perm ((l.map Prod.snd).flatten ++ v) := by
  induction l with
  | nil => simp [extendAt]
  | cons a rest ih =>
    obtain ⟨a1, a2⟩ := a
    by_cases h : a1 = k
    · rw [show extendAt ((a1, a2) :: rest) k v = (a1, a2 ++ v) :: rest from by
        rw [extendAt, if_pos h]]
      simp only [List.map_cons, List.flatten_cons]
      rw [List.append_assoc, List.append_assoc]
      exact (@List.perm_append_comm _ v _).append_left a2
    · rw [show extendAt ((a1, a2) :: rest) k v = (a1, a2) :: extendAt rest k v from by
        rw [extendAt, if_neg h]]
      simp only [List.map_cons, List.flatten_cons]
      rw [List.append_assoc]
      exact ih.append_left a2

theorem foldl_extendAt_flatten_perm (f : String → String) (m : List (String × List Int))
    (acc : List (String × List Int)) :
    ((m.foldl (fun acc kv => extendAt acc (f kv.1) kv.2) acc).map Prod.snd).flatten.Perm
      ((acc.map Prod.snd).flatten ++ (m.map Prod.snd).flatten) := by
  induction m generalizing acc with
  | nil => simp
  | cons kv rest ih =>
    rw [List.foldl_cons]
    refine (ih _).trans ?_
    rw [List.map_cons, List.flatten_cons, ← List.append_assoc]
    exact (extendAt_flatten_perm acc (f kv.1) kv.2).append_right _

theorem groupByKey_flatten_perm (f : String → String) (m : List (String × List Int)) :
    ((groupByKey f m).map Prod.snd).flatten.Perm ((m.map Prod.snd).flatten) := by
  have h := foldl_extendAt_flatten_perm f m []
  simpa [groupByKey] using h

theorem sortVals_map_fst (l : List (String × List Int)) :
    (sortVals l).map Prod.fst = l.map Prod.fst := by
  induction l with
  | nil => rfl
  | cons a rest ih =>
    simp only [sortVals, List.map_cons] at ih ⊢
    rw [ih]

theorem sortVals_flatten_perm (l : List (String × List Int)) :
    ((sortVals l).map Prod.snd).flatten.Perm ((l.map Prod.snd).flatten) := by
  induction l with
  | nil => rfl
  | cons a rest ih =>
    simp only [sortVals, List.map_cons, List.flatten_cons] at ih ⊢
    exact (List.perm_insertionSort _ _).append ih

theorem lookupD_sortVals (l : List (String × List Int)) (k : String) :
    lookupD (sortVals l) k = (lookupD l k).map (fun v => v.insertionSort (· ≤ ·)) := by
  induction l with
  | nil => rfl
  | cons a rest ih =>
    obtain ⟨a1, a2⟩ := a
    simp only [sortVals, List.map_cons] at ih ⊢
    rw [lookupD, lookupD]
    by_cases h : a1 = k
    · rw [if_pos h, if_pos h]
      rfl
    · rw [if_neg h, if_neg h]
      exact ih

theorem srcDict_keys_nodup (s : List (String × List Int)) :
    ((srcDict s).map Prod.fst).Nodup := by
  rw [srcDict, sortVals_map_fst]
  exact groupByKey_keys_nodup _ _

theorem destDict_keys_nodup (d : List (String × List Int)) :
    ((destDict d).map Prod.fst).Nodup := by
  rw [destDict, sortVals_map_fst]
  exact groupByKey_keys_nodup _ _

theorem srcDict_flatten_nodup (s : List (String × List Int))
    (h : ((s.map Prod.snd).flatten).Nodup) :
    (((srcDict s).map Prod.snd).flatten).Nodup := by
  rw [srcDict]
  exact ((sortVals_flatten_perm _).trans (groupByKey_flatten_perm _ _)).nodup_iff.mpr h

/-! ### Emission characterisation of _make_image_map -/

theorem packPairs_eq_foldl (sv dv : List Int) (imgmap : List (String × Int)) :
    packPairs sv dv imgmap
      = ((sv.zip dv).map (fun p => ("Image:" ++ pyIntStr p.1, p.2))).foldl
          (fun acc q => dictInsert acc q.1 q.2) imgmap := by
  rw [packPairs, List.foldl_map]

theorem packStep_eq (dd : List (String × List Int)) (imgmap : List (String × Int))
    (kv : String × List Int) :
    packStep dd imgmap kv
      = (groupEmissions dd kv).foldl (fun acc q => dictInsert acc q.1 q.2) imgmap := by
  rw [packStep, groupEmissions]
  cases lookupD dd kv.1 with
  | none => rfl
  | some dv =>
    dsimp only
    by_cases h : kv.2.length = dv.length
    · rw [if_pos h, if_pos h, packPairs_eq_foldl]
    · rw [if_neg h, if_neg h]
      rfl

theorem foldl_packStep_eq (dd : List (String × List Int)) (gs : List (String × List Int))
    (m : List (String × Int)) :
    gs.foldl (packStep dd) m
      = ((gs.map (groupEmissions dd)).flatten).foldl (fun acc q => dictInsert acc q.1 q.2) m := by
  induction gs generalizing m with
  | nil => rfl
  | cons kv rest ih =>
    rw [List.foldl_cons, ih, List.map_cons, List.flatten_cons, List.foldl_append, packStep_eq]

theorem make_image_map_eq_foldl (s d : List (String × List Int)) :
    _make_image_map s d
      = (emissions s d).foldl (fun acc q => dictInsert acc q.1 q.2) [] := by
  rw [_make_image_map, emissions, foldl_packStep_eq]

theorem lookupP_foldl_insert_none (L : List (String × Int)) (m : List (String × Int))
    (k : String) (h : lookupLast L k = none) :
    lookupP (L.foldl (fun acc q => dictInsert acc q.1 q.2) m) k = lookupP m k := by
  induction L generalizing m with
  | nil => rfl
  | cons p rest ih =>
    rw [lookupLast] at h
    cases hr : lookupLast rest k with
    | some w => rw [hr] at h; simp at h
    | none =>
      rw [hr] at h
      have hp : ¬(p.1 = k) := by
        intro hh
        rw [if_pos hh] at h
        simp at h
      rw [List.foldl_cons, ih _ hr, lookupP_dictInsert]
      rw [if_neg (fun hh : k = p.1 => hp hh.symm)]

theorem lookupP_foldl_insert_some (L : List (String × Int)) (m : List (String × Int))
    (k : String) (v : Int) (h : lookupLast L k = some v) :
    lookupP (L.foldl (fun acc q => dictInsert acc q.1 q.2) m) k = some v := by
  induction L generalizing m with
  | nil => simp [lookupLast] at h
  | cons p rest ih =>
    rw [lookupLast] at h
    cases hr : lookupLast rest k with
    | some w =>
      rw [hr] at h
      have hw : w = v := by simpa using h
      subst hw
      rw [List.foldl_cons]
      exact ih _ hr
    | none =>
      rw [hr] at h
      by_cases hp : p.1 = k
      · rw [if_pos hp] at h
        have hv : p.2 = v := by simpa using h
        rw [List.foldl_cons, lookupP_foldl_insert_none rest _ k hr, lookupP_dictInsert,
          if_pos hp.symm, hv]
      · rw [if_neg hp] at h
        simp at h

theorem mem_zip_map_key (sv dv : List Int) (i : Nat) (hi : i < sv.length) (hj : i < dv.length) :
    ("Image:" ++ pyIntStr (sv.get ⟨i, hi⟩), dv.get ⟨i, hj⟩)
      ∈ (sv.zip dv).map (fun p => ("Image:" ++ pyIntStr p.1, p.2)) := by
  apply List.mem_map.mpr
  refine ⟨(sv.get ⟨i, hi⟩, dv.get ⟨i, hj⟩), ?_, rfl⟩
  have hz : i < (sv.zip dv).length := by
    rw [List.length_zip]
    exact lt_min hi hj
  have hm := List.get_mem (sv.zip dv) i hz
  rw [List.get_eq_getElem, List.getElem_zip] at hm
  simpa using hm

theorem zip_map_key_mem (sv dv : List Int) (q : String × Int)
    (h : q ∈ (sv.zip dv).map (fun p => ("Image:" ++ pyIntStr p.1, p.2))) :
    ∃ i, ∃ (hi : i < sv.length) (hj : i < dv.length),
      q = ("Image:" ++ pyIntStr (sv.get ⟨i, hi⟩), dv.get ⟨i, hj⟩) := by
  obtain ⟨pr, hpr, hq⟩ := List.mem_map.mp h
  obtain ⟨⟨i, hz⟩, hget⟩ := List.mem_iff_get.mp hpr
  have hi : i < sv.length := by
    rw [List.length_zip] at hz
    exact lt_of_lt_of_le hz (min_le_left _ _)
  have hj : i < dv.length := by
    rw [List.length_zip] at hz
    exact lt_of_lt_of_le hz (min_le_right _ _)
  refine ⟨i, hi, hj, ?_⟩
  rw [← hq, ← hget]
  simp [List.getElem_zip]

theorem emissions_mem_iff (s d : List (String × List Int)) (q : String × Int) :
    q ∈ emissions s d ↔
      ∃ p sv dv, lookupD (srcDict s) p = some sv ∧ lookupD (destDict d) p = some dv ∧
        sv.length = dv.length ∧
        ∃ i, ∃ (hi : i < sv.length) (hj : i < dv.length),
          q = ("Image:" ++ pyIntStr (sv.get ⟨i, hi⟩), dv.get ⟨i, hj⟩) := by
  constructor
  · intro hq
    rw [emissions] at hq
    obtain ⟨l, hl, hql⟩ := List.mem_flatten.mp hq
    obtain ⟨kv, hkv, hlkv⟩ := List.mem_map.mp hl
    obtain ⟨p, sv⟩ := kv
    rw [← hlkv, groupEmissions] at hql
    dsimp only at hql
    cases hd : lookupD (destDict d) p with
    | none =>
      rw [hd] at hql
      simp at hql
    | some dv =>
      rw [hd] at hql
      dsimp only at hql
      by_cases hlen : sv.length = dv.length
      · rw [if_pos hlen] at hql
        obtain ⟨i, hi, hj, hqe⟩ := zip_map_key_mem sv dv q hql
        exact ⟨p, sv, dv, lookupD_eq_some_of_mem _ _ _ (srcDict_keys_nodup s) hkv, hd,
          hlen, i, hi, hj, hqe⟩
      · rw [if_neg hlen] at hql
        simp at hql
  · rintro ⟨p, sv, dv, hs, hd, hlen, i, hi, hj, hqe⟩
    rw [emissions]
    apply List.mem_flatten.mpr
    refine ⟨groupEmissions (destDict d) (p, sv),
      List.mem_map.mpr ⟨(p, sv), lookupD_mem _ _ _ hs, rfl⟩, ?_⟩
    rw [groupEmissions]
    dsimp only
    rw [hd]
    dsimp only
    rw [if_pos hlen, hqe]
    exact mem_zip_map_key sv dv i hi hj

theorem image_key_inj (x y : Int)
    (h : "Image:" ++ pyIntStr x = "Image:" ++ pyIntStr y) : x = y := by
  apply pyIntStr_inj
  apply String.ext
  have hd := congrArg String.data h
  rw [String.data_append, String.data_append] at hd
  exact List.append_cancel_left hd

/-! ### Claim C1: positional pairing of the reconciliation engine -/

/-- C1: for every source and destination map whose source id lists are
globally duplicate-free, the reconciliation engine _make_image_map,
after its key normalization (the shared sentinel strip stripMockKey on
source keys, the remainder after the last /./ marker on destination
keys), grouping and ascending sorting: (0) every grouped id list on
either side is sorted ascending, so its i-th element is its i-th
smallest; (1) it emits for each normalized path present on both sides
with id lists of equal length exactly the positional pairs
Image:(i-th source id) mapped to the i-th destination id of the
engine's sorted lists; (2) it emits no entry at all for a source path
whose destination side is missing or of mismatched length; and (3) it
emits nothing beyond those positional pairs. -/
theorem make_image_map_pairing (source_map dest_map : List (String × List Int))
    (hids : ((source_map.map Prod.snd).flatten).Nodup) :
    (∀ p sv, lookupD (srcDict source_map) p = some sv → sv.Sorted (· ≤ ·))
    ∧ (∀ p dv, lookupD (destDict dest_map) p = some dv → dv.Sorted (· ≤ ·))
    ∧ (∀ p sv dv, lookupD (srcDict source_map) p = some sv →
        lookupD (destDict dest_map) p = some dv → sv.length = dv.length →
        ∀ i, ∀ (hi : i < sv.length) (hj : i < dv.length),
          lookupP (_make_image_map source_map dest_map)
              ("Image:" ++ pyIntStr (sv.get ⟨i, hi⟩)) = some (dv.get ⟨i, hj⟩))
    ∧ (∀ p sv, lookupD (srcDict source_map) p = some sv →
        (∀ dv, lookupD (destDict dest_map) p = some dv → sv.length ≠ dv.length) →
        ∀ x ∈ sv,
          lookupP (_make_image_map source_map dest_map) ("Image:" ++ pyIntStr x) = none)
    ∧ (∀ K v, lookupP (_make_image_map source_map dest_map) K = some v →
        ∃ p sv dv, lookupD (srcDict source_map) p = some sv ∧
          lookupD (destDict dest_map) p = some dv ∧ sv.length = dv.length ∧
          ∃ i, ∃ (hi : i < sv.length) (hj : i < dv.length),
            K = "Image:" ++ pyIntStr (sv.get ⟨i, hi⟩) ∧ v = dv.get ⟨i, hj⟩) := by
  have hflat := srcDict_flatten_nodup source_map hids
  refine ⟨?_, ?_, ?_, ?_, ?_⟩
  · intro p sv h
    rw [srcDict, lookupD_sortVals] at h
    cases hq : lookupD (groupByKey stripMockKey source_map) p with
    | none => rw [hq] at h; simp at h
    | some v =>
      rw [hq] at h
      have hv : v.insertionSort (· ≤ ·) = sv := by simpa using h
      rw [← hv]
      exact List.sorted_insertionSort _ _
  · intro p dv h
    rw [destDict, lookupD_sortVals] at h
    cases hq : lookupD (groupByKey destNormKey dest_map) p with
    | none => rw [hq] at h; simp at h
    | some v =>
      rw [hq] at h
      have hv : v.insertionSort (· ≤ ·) = dv := by simpa using h
      rw [← hv]
      exact List.sorted_insertionSort _ _
  · intro p sv dv hs hd hlen i hi hj
    rw [make_image_map_eq_foldl]
    have hmem : ("Image:" ++ pyIntStr (sv.get ⟨i, hi⟩), dv.get ⟨i, hj⟩)
        ∈ emissions source_map dest_map :=
      (emissions_mem_iff _ _ _).mpr ⟨p, sv, dv, hs, hd, hlen, i, hi, hj, rfl⟩
    have huniq : ∀ w,
        ("Image:" ++ pyIntStr (sv.get ⟨i, hi⟩), w) ∈ emissions source_map dest_map →
        w = dv.get ⟨i, hj⟩ := by
      intro w hw
      obtain ⟨p', sv', dv', hs', hd', hlen', i', hi', hj', hq⟩ :=
        (emissions_mem_iff _ _ _).mp hw
      have hkey : "Image:" ++ pyIntStr (sv.get ⟨i, hi⟩)
          = "Image:" ++ pyIntStr (sv'.get ⟨i', hi'⟩) := congrArg Prod.fst hq
      have hxw : w = dv'.get ⟨i', hj'⟩ := congrArg Prod.snd hq
      have hx : sv.get ⟨i, hi⟩ = sv'.get ⟨i', hi'⟩ := image_key_inj _ _ hkey
      by_cases hpp : p = p'
      · subst hpp
        have hsv : sv = sv' := by
          rw [hs] at hs'
          exact Option.some.inj hs'
        subst hsv
        have hdv : dv = dv' := by
          rw [hd] at hd'
          exact Option.some.inj hd'
        subst hdv
        have hnd : sv.Nodup := lookupD_val_nodup _ hflat p sv hs
        have hfin : (⟨i, hi⟩ : Fin sv.length) = ⟨i', hi'⟩ := hnd.get_inj_iff.mp hx
        have hii : i = i' := congrArg Fin.val hfin
        subst hii
        exact hxw
      · exfalso
        have hxin : sv.get ⟨i, hi⟩ ∈ sv := List.get_mem _ _ _
        have hxin' : sv.get ⟨i, hi⟩ ∈ sv' := by
          rw [hx]
          exact List.get_mem _ _ _
        exact lookupD_disjoint _ hflat p p' sv sv' hs hs' hpp _ hxin hxin'
    exact lookupP_foldl_insert_some _ _ _ _ (lookupLast_unique _ _ _ hmem huniq)
  · intro p sv hs hmis x hx
    rw [make_image_map_eq_foldl]
    have hnone : lookupLast (emissions source_map dest_map) ("Image:" ++ pyIntStr x) = none := by
      apply lookupLast_eq_none
      intro q hq hqk
      obtain ⟨p', sv', dv', hs', hd', hlen', i', hi', hj', hqe⟩ :=
        (emissions_mem_iff _ _ _).mp hq
      have hkey : "Image:" ++ pyIntStr x = "Image:" ++ pyIntStr (sv'.get ⟨i', hi'⟩) := by
        rw [← hqk]
        exact congrArg Prod.fst hqe
      have hxx : x = sv'.get ⟨i', hi'⟩ := image_key_inj _ _ hkey
      by_cases hpp : p = p'
      · subst hpp
        have hsv : sv' = sv := by
          rw [hs] at hs'
          exact (Option.some.inj hs').symm
        exact hmis dv' hd' (hsv ▸ hlen')
      · have hxin' : x ∈ sv' := by
          rw [hxx]
          exact List.get_mem _ _ _
        exact lookupD_disjoint _ hflat p p' sv sv' hs hs' hpp x hx hxin'
    rw [lookupP_foldl_insert_none _ _ _ hnone]
    rfl
  · intro K v hv
    rw [make_image_map_eq_foldl] at hv
    have hl : lookupLast (emissions source_map dest_map) K = some v := by
      cases hr : lookupLast (emissions source_map dest_map) K with
      | some w =>
        rw [lookupP_foldl_insert_some _ _ _ _ hr] at hv
        exact hv
      | none =>
        rw [lookupP_foldl_insert_none _ _ _ hr] at hv
        simp [lookupP] at hv
    have hmem := lookupLast_mem _ _ _ hl
    obtain ⟨p, sv, dv, hs, hd, hlen, i, hi, hj, hqe⟩ := (emissions_mem_iff _ _ _).mp hmem
    exact ⟨p, sv, dv, hs, hd, hlen, i, hi, hj,
      congrArg Prod.fst hqe, congrArg Prod.snd hqe⟩

theorem make_image_map_pairing_witness :
    ((([("p", [7, 5]), ("qmock_folder", [9])].map Prod.snd).flatten).Nodup)
      ∧ lookupP (_make_image_map [("p", [7, 5]), ("qmock_folder", [9])]
            [("root/./p", [103, 101]), ("x/./q", [201])])
          ("Image:" ++ pyIntStr 5) = some 101 := by
  refine ⟨by decide, ?_⟩
  exact (make_image_map_pairing [("p", [7, 5]), ("qmock_folder", [9])]
    [("root/./p", [103, 101]), ("x/./q", [201])] (by decide)).2.2.1 "p" [5, 7] [101, 103]
    (by decide) (by decide) (by decide) 0 (by decide) (by decide)

/-! ### Idempotence of the sentinel key normalization -/

theorem dropWhile_head_false (f : Char → Bool) (l : List Char) (x : Char) (xs : List Char)
    (h : l.dropWhile f = x :: xs) : f x = false := by
  induction l with
  | nil => simp [List.dropWhile] at h
  | cons a rest ih =>
    rw [List.dropWhile_cons] at h
    by_cases hf : f a = true
    · rw [if_pos hf] at h
      exact ih h
    · rw [if_neg hf] at h
      have ha : a = x := (List.cons.inj h).1
      rw [← ha]
      exact Bool.not_eq_true _ ▸ (by simpa using hf)

theorem pyRstrip_mock_not_endsWith (p : String) :
    pyEndsWith "mock_folder" (pyRstrip "mock_folder" p) = false := by
  rw [pyEndsWith, pyRstrip]
  rw [show (String.mk ((p.toList.reverse.dropWhile
        (fun c => ("mock_folder" : String).toList.contains c)).reverse)).toList
      = (p.toList.reverse.dropWhile
        (fun c => ("mock_folder" : String).toList.contains c)).reverse from rfl]
  simp only [List.isSuffixOf, List.reverse_reverse]
  cases hd : p.toList.reverse.dropWhile
      (fun c => ("mock_folder" : String).toList.contains c) with
  | nil => decide
  | cons x xs =>
    have hx : (("mock_folder" : String).toList.contains x) = false :=
      dropWhile_head_false _ _ _ _ hd
    cases hb : ("mock_folder" : String).toList.reverse.isPrefixOf (x :: xs) with
    | false => rfl
    | true =>
      exfalso
      have hpfx := List.isPrefixOf_iff_prefix.mp hb
      rw [show ("mock_folder" : String).toList.reverse
          = 'r' :: ['e', 'd', 'l', 'o', 'f', '_', 'k', 'c', 'o', 'm'] from by decide] at hpfx
      have hr := (List.cons_prefix_cons.mp hpfx).1
      rw [← hr] at hx
      exact absurd hx (by decide)

/-- The idempotence half of the path-normalization contract does hold:
normalizing an already-normalized key is a no-op. -/
theorem stripMockKey_idem (p : String) : stripMockKey (stripMockKey p) = stripMockKey p := by
  by_cases h : pyEndsWith "mock_folder" p = true
  · rw [show stripMockKey p = pyRstrip "mock_folder" p from by rw [stripMockKey, if_pos h]]
    rw [stripMockKey, if_neg (by rw [pyRstrip_mock_not_endsWith]; exact Bool.false_ne_true)]
  · rw [show stripMockKey p = p from by rw [stripMockKey, if_neg h]]
    rw [stripMockKey, if_neg h]
